import Mathlib

/-!
Verification of the Proton startup orchestrator and the generic lifecycle
dispatcher.  The orchestrator (`Proton.start` / `Proton.awaitStart` /
`Proton.get` and the `Provider` registration decorator) is embedded as a
small-step model of the single-threaded cooperative scheduler: `task.spawn`
runs a spawned unit synchronously until it yields or finishes, suspended
units are resumed by top-level scheduler ticks, and `coroutine.status` of
the thread that called `start()` is tracked explicitly.  The lifecycle
dispatcher (`register` / `unregister` / `fireSeries` / `fireConcurrent`)
is embedded as operations on the ordered callback list, with `unregister`
performing the swap-remove of `Array.unorderedRemove`.
-/

/-- A provider singleton registered with Proton.  `pid` is the identity of
the provider class, `inst` the identity of the singleton instance created
at registration.  `hasInit` records whether the instance has a
`protonInit` method; its behavior is abstracted as the number of times it
yields (`initYields`) and whether it ends by raising (`initRaises`).
`hasStart` records whether the instance has a `protonStart` method. -/
structure ProviderSpec where
  pid : Nat
  inst : Nat
  hasInit : Bool
  initYields : Nat
  initRaises : Bool
  hasStart : Bool
deriving DecidableEq, Repr

/-- A suspended `protonInit` unit: the provider it belongs to, how many
more times it will yield before finishing, and whether it finishes by
raising. -/
structure PendingUnit where
  pid : Nat
  yieldsLeft : Nat
  raises : Bool
deriving DecidableEq, Repr

/-- Status of the thread that called `Proton.start()`, mirroring
`coroutine.status`: `idle` before `start()` is called, `running` while it
runs, `normal` while a unit it spawned runs, `suspended` after it yields at
the init barrier, `done` after `start()` has returned. -/
inductive CStatus
  | idle
  | running
  | normal
  | suspended
  | done
deriving DecidableEq, Repr

/-- Global state of the Proton module (`src/unnamed/part_002`): the
registry map, the `starting` and `started` flags, the `awaitStartThreads`
list, the locals of `start()` (`numInitProviders`, `completedInit`), the
suspended init units, and ghost logs of every observable event (units
spawned, completed, raised, waiter threads resumed, `awaitStart` calls that
returned without suspending, how often the barrier resumed the caller, and
whether the caller ever yielded at the barrier). -/
structure PState where
  providers : List ProviderSpec
  starting : Bool
  started : Bool
  numInitProviders : Nat
  completedInit : Nat
  initSpawned : List Nat
  initCompleted : List Nat
  initRaised : List Nat
  pending : List PendingUnit
  callerStatus : CStatus
  callerResumes : Nat
  callerYielded : Bool
  startSpawned : List Nat
  waiters : List Nat
  resumedWaiters : List Nat
  awaitReturnedNow : List Nat
deriving DecidableEq, Repr

/-- Provider-class identities of the providers that implement
`protonInit`, in registry order. -/
def initPids (ps : List ProviderSpec) : List Nat :=
  (ps.filter (fun p => p.hasInit)).map (fun p => p.pid)

/-- Provider-class identities of the providers that implement
`protonStart`, in registry order. -/
def startPids (ps : List ProviderSpec) : List Nat :=
  (ps.filter (fun p => p.hasStart)).map (fun p => p.pid)

/-- Providers whose `protonInit` finishes without yielding and without
raising: their units complete synchronously during the enumeration loop. -/
def syncOkPids (ps : List ProviderSpec) : List Nat :=
  (ps.filter (fun p => p.hasInit && p.initYields == 0 && !p.initRaises)).map (fun p => p.pid)

/-- Providers whose `protonInit` raises without yielding. -/
def syncRaisePids (ps : List ProviderSpec) : List Nat :=
  (ps.filter (fun p => p.hasInit && p.initYields == 0 && p.initRaises)).map (fun p => p.pid)

/-- Suspended units created by providers whose `protonInit` yields at
least once. -/
def pendingUnitsOf (ps : List ProviderSpec) : List PendingUnit :=
  (ps.filter (fun p => p.hasInit && !(p.initYields == 0))).map
    (fun p => PendingUnit.mk p.pid (p.initYields - 1) p.initRaises)

/-- Phase 2 of `start()`: spawn one fire-and-forget unit per provider with
a `protonStart` method, set `starting = false; started = true`, resume
every thread parked in `awaitStartThreads` and clear the list. -/
def runPhase2 (s : PState) : PState :=
  { s with
    startSpawned := s.startSpawned ++ startPids s.providers
    starting := false
    started := true
    resumedWaiters := s.resumedWaiters ++ s.waiters
    waiters := [] }

/-- The tail of a `protonInit` unit, after its last yield: either raise
(the completion count is never incremented), or increment `completedInit`
and, when the count has reached `numInitProviders` and the caller of
`start()` is suspended at the barrier, `task.spawn` the caller — which
immediately runs Phase 2 and lets `start()` return. -/
def finishInit (pid : Nat) (raises : Bool) (s : PState) : PState :=
  if raises then
    { s with initRaised := s.initRaised ++ [pid] }
  else
    let s1 := { s with
      completedInit := s.completedInit + 1
      initCompleted := s.initCompleted ++ [pid] }
    if s1.completedInit = s1.numInitProviders ∧ s1.callerStatus = CStatus.suspended then
      { (runPhase2 { s1 with
          callerResumes := s1.callerResumes + 1
          callerStatus := CStatus.running }) with
        callerStatus := CStatus.done }
    else
      s1

/-- `task.spawn` of one `protonInit` unit: the unit runs synchronously and
either finishes at once (`initYields = 0`) or yields and is parked as a
pending unit. -/
def spawnInitUnit (p : ProviderSpec) (s : PState) : PState :=
  let s1 := { s with initSpawned := s.initSpawned ++ [p.pid] }
  if p.initYields = 0 then
    finishInit p.pid p.initRaises s1
  else
    { s1 with pending := s1.pending ++ [PendingUnit.mk p.pid (p.initYields - 1) p.initRaises] }

/-- One iteration of the init enumeration loop of `start()`: for a
provider with `protonInit`, increment `numInitProviders` and spawn its
unit.  While the spawned unit runs, the caller's coroutine status is
`normal`, so the barrier's `coroutine.status(thread) === "suspended"`
check cannot fire during the loop. -/
def initLoopStep (s : PState) (p : ProviderSpec) : PState :=
  if p.hasInit then
    let s1 := { s with
      numInitProviders := s.numInitProviders + 1
      callerStatus := CStatus.normal }
    let s2 := spawnInitUnit p s1
    { s2 with callerStatus := CStatus.running }
  else
    s

/-- `Proton.start()`: return at once if `starting || started`; otherwise
set `starting`, run the init enumeration loop, yield at the barrier when
some init unit has not completed, and otherwise run Phase 2 directly. -/
def runStart (s : PState) : PState :=
  if s.starting || s.started then
    s
  else
    let s1 := { s with starting := true, callerStatus := CStatus.running }
    let s2 := s1.providers.foldl initLoopStep s1
    if s2.completedInit ≠ s2.numInitProviders then
      { s2 with callerStatus := CStatus.suspended, callerYielded := true }
    else
      { (runPhase2 s2) with callerStatus := CStatus.done }

/-- `Proton.awaitStart()` called by thread `tid`: return at once when
`started`, otherwise park the thread in `awaitStartThreads` and yield. -/
def runAwait (tid : Nat) (s : PState) : PState :=
  if s.started then
    { s with awaitReturnedNow := s.awaitReturnedNow ++ [tid] }
  else
    { s with waiters := s.waiters ++ [tid] }

/-- A top-level scheduler tick: resume one suspended init unit (chosen by
`choice`); the resumed unit either yields again or runs its tail
(`finishInit`). -/
def tick (choice : Nat) (s : PState) : PState :=
  if s.pending.length = 0 then
    s
  else
    let i := choice % s.pending.length
    let u := s.pending.getD i (PendingUnit.mk 0 0 false)
    let s1 := { s with pending := s.pending.eraseIdx i }
    if u.yieldsLeft = 0 then
      finishInit u.pid u.raises s1
    else
      { s1 with pending := s1.pending ++ [PendingUnit.mk u.pid (u.yieldsLeft - 1) u.raises] }

/-- Top-level events interleaved by the host scheduler. -/
inductive Event
  | callStart : Event
  | callAwait : Nat → Event
  | tick : Nat → Event
deriving DecidableEq, Repr

/-- Dispatch one top-level event. -/
def step (s : PState) : Event → PState
  | Event.callStart => runStart s
  | Event.callAwait t => runAwait t s
  | Event.tick c => tick c s

/-- Run a sequence of top-level events. -/
def run (s : PState) (es : List Event) : PState :=
  es.foldl step s

/-- The pristine module state holding a registry. -/
def initState (ps : List ProviderSpec) : PState :=
  { providers := ps
    starting := false
    started := false
    numInitProviders := 0
    completedInit := 0
    initSpawned := []
    initCompleted := []
    initRaised := []
    pending := []
    callerStatus := CStatus.idle
    callerResumes := 0
    callerYielded := false
    startSpawned := []
    waiters := []
    resumedWaiters := []
    awaitReturnedNow := [] }

/-- All states reachable from a registry by top-level events. -/
def reach (ps : List ProviderSpec) (es : List Event) : PState :=
  run (initState ps) es

/-- The `Provider()` decorator applied to a class: raise when
`starting || started` (before touching the registry), otherwise construct
the singleton and insert it with `Map.set` semantics (an existing key is
overwritten in place). -/
def registerProvider (s : PState) (p : ProviderSpec) : PState × Option String :=
  if s.starting || s.started then
    (s, some ("[Proton]: Cannot create provider after Proton has started"))
  else if s.providers.any (fun q => q.pid == p.pid) then
    ({ s with providers := s.providers.map (fun q => if q.pid == p.pid then p else q) }, none)
  else
    ({ s with providers := s.providers ++ [p] }, none)

/-- `Proton.get`: look the provider class up in the registry, raise when
absent, otherwise return the singleton instance.  No state is touched. -/
def getProvider (s : PState) (pid : Nat) : Except String Nat :=
  match s.providers.find? (fun p => p.pid == pid) with
  | some p => Except.ok p.inst
  | none => Except.error ("[Proton]: Failed to find provider")

/-- The lifecycle dispatcher state (`src/src/lifecycle.ts`): the ordered
callback list, plus a ghost append-only log of every `register` call used
to speak about registration order. -/
structure Lifecycle where
  callbacks : List Nat
  regLog : List Nat
deriving DecidableEq, Repr

/-- A dispatcher with no callbacks. -/
def Lifecycle.empty : Lifecycle :=
  Lifecycle.mk [] []

/-- `Lifecycle.register`: append the callback to the ordered list. -/
def Lifecycle.register (l : Lifecycle) (c : Nat) : Lifecycle :=
  Lifecycle.mk (l.callbacks ++ [c]) (l.regLog ++ [c])

/-- `Array.unorderedRemove(i)` of roblox-ts: move the last element into
slot `i` and drop the last slot. -/
def unorderedRemove (xs : List Nat) (i : Nat) : List Nat :=
  if i < xs.length then (xs.set i (xs.getLastD 0)).dropLast else xs

/-- `Lifecycle.unregister`: find the first index of the callback
(`indexOf`), no-op when absent, otherwise swap-remove it. -/
def Lifecycle.unregister (l : Lifecycle) (c : Nat) : Lifecycle :=
  match l.callbacks.findIdx? (fun x => x == c) with
  | none => l
  | some i => Lifecycle.mk (unorderedRemove l.callbacks i) l.regLog

/-- The currently registered callbacks listed in the order in which they
were registered. -/
def currentRegOrder (l : Lifecycle) : List Nat :=
  l.regLog.filter (fun c => l.callbacks.contains c)

/-- `fireSeries`: call each callback of the list in order on the caller's
own thread; a raising callback propagates and the remaining callbacks are
not invoked.  Returns the list of callbacks invoked during the call and
whether the call itself raised. -/
def fireSeries (raises : Nat → Bool) : List Nat → List Nat × Bool
  | [] => ([], false)
  | c :: rest =>
    if raises c then
      ([c], true)
    else
      (c :: (fireSeries raises rest).1, (fireSeries raises rest).2)

/-- Behavior of a lifecycle callback under concurrent dispatch: how many
times it yields, and whether it ends by raising. -/
structure CbBehavior where
  yields : Nat
  raises : Bool

/-- A concurrent-dispatch unit that yielded during `fire()` and is still
incomplete when `fire()` returns. -/
structure ConcUnit where
  cb : Nat
  yieldsLeft : Nat
  raises : Bool
deriving DecidableEq, Repr

/-- Result of `fireConcurrent`: units spawned (in list order), units that
completed or raised synchronously before `fire()` returned, units still
pending when `fire()` returned, and whether the caller of `fire()` raised
(`task.spawn` isolates unit errors, so it never does). -/
structure ConcResult where
  spawned : List Nat
  completed : List Nat
  raisedUnits : List Nat
  pendingUnits : List ConcUnit
  callerRaised : Bool
deriving DecidableEq, Repr

/-- `fireConcurrent`: `task.spawn` one unit per callback of the list, in
order; each unit runs synchronously until its first yield or its end; a
unit's error stays inside that unit. -/
def fireConcurrent (beh : Nat → CbBehavior) : List Nat → ConcResult
  | [] => ConcResult.mk [] [] [] [] false
  | c :: rest =>
    let r := fireConcurrent beh rest
    if (beh c).yields = 0 then
      if (beh c).raises then
        ConcResult.mk (c :: r.spawned) r.completed (c :: r.raisedUnits) r.pendingUnits false
      else
        ConcResult.mk (c :: r.spawned) (c :: r.completed) r.raisedUnits r.pendingUnits false
    else
      ConcResult.mk (c :: r.spawned) r.completed r.raisedUnits
        (ConcUnit.mk c ((beh c).yields - 1) (beh c).raises :: r.pendingUnits) false

/-- Provider whose `protonInit` completes synchronously and that also has
`protonStart`. -/
def pInitSync : ProviderSpec := ProviderSpec.mk 1 10 true 0 false true

/-- Provider whose `protonInit` yields once before completing. -/
def pInitYield : ProviderSpec := ProviderSpec.mk 2 20 true 1 false false

/-- Provider with neither `protonInit` nor `protonStart`. -/
def pNoCaps : ProviderSpec := ProviderSpec.mk 3 30 false 0 false false

/-- Provider whose `protonInit` raises synchronously. -/
def pInitRaise : ProviderSpec := ProviderSpec.mk 4 40 true 0 true false

/-- Second provider whose `protonInit` completes synchronously. -/
def pInitSync2 : ProviderSpec := ProviderSpec.mk 5 50 true 0 false false

/-- Dispatcher obtained by registering callbacks 1, 2, 3 and then
unregistering callback 1. -/
def lcex : Lifecycle :=
  (((Lifecycle.empty.register 1).register 2).register 3).unregister 1

/-- Two-callback dispatcher used as a concrete concurrent-dispatch
scenario. -/
def lconc : Lifecycle :=
  (Lifecycle.empty.register 1).register 2

/-- Concrete behaviors for `lconc`: callback 1 yields once, callback 2
raises synchronously. -/
def behW : Nat → CbBehavior :=
  fun c => if c = 1 then CbBehavior.mk 1 false else CbBehavior.mk 0 true

/-- Inductive invariant of the orchestrator, relating every reachable
state to the registry `ps` it started from: bookkeeping identities between
the counters and the ghost logs, a multiset accounting of every spawned
init unit into completed / raised / still-pending, and the state-machine
facts attached to each flag configuration (`NotStarted`, `Initializing`,
`Started`). -/
structure PInv (ps : List ProviderSpec) (s : PState) : Prop where
  providers_eq : s.providers = ps
  completed_len : s.completedInit = s.initCompleted.length
  num_len : s.numInitProviders = s.initSpawned.length
  perm : s.initSpawned.Perm (s.initCompleted ++ s.initRaised ++ s.pending.map PendingUnit.pid)
  spawned_eq : s.starting = true ∨ s.started = true → s.initSpawned = initPids ps
  idle_all : s.starting = false → s.started = false →
    s.initSpawned = [] ∧ s.pending = [] ∧ s.initCompleted = [] ∧ s.initRaised = [] ∧
      s.startSpawned = [] ∧ s.callerStatus = CStatus.idle ∧ s.callerResumes = 0 ∧
      s.callerYielded = false
  started_all : s.started = true →
    s.completedInit = s.numInitProviders ∧ s.starting = false ∧ s.waiters = [] ∧
      s.callerStatus = CStatus.done ∧ s.startSpawned = startPids ps
  starting_all : s.starting = true →
    s.callerStatus = CStatus.suspended ∧ s.callerYielded = true ∧
      s.completedInit ≠ s.numInitProviders ∧ s.startSpawned = [] ∧ s.started = false
  pending_link : ∀ u ∈ s.pending, ∃ p, p ∈ ps ∧ p.pid = u.pid ∧ p.hasInit = true ∧
    u.raises = p.initRaises ∧ 0 < p.initYields
  raised_link : ∀ pid ∈ s.initRaised, ∃ p, p ∈ ps ∧ p.pid = pid ∧ p.hasInit = true ∧
    p.initRaises = true
  completed_link : ∀ pid ∈ s.initCompleted, ∃ p, p ∈ ps ∧ p.pid = pid ∧ p.hasInit = true ∧
    p.initRaises = false
  resumes_le : s.callerResumes ≤ 1
  resumes_started : s.callerResumes = 1 → s.started = true
  yielded_spawned : s.callerYielded = true → s.initSpawned ≠ []
  allsync_resumes : (∀ p, p ∈ ps → p.hasInit = true → p.initYields = 0) →
    s.callerResumes = 0

theorem fireSeries_eq (raises : Nat → Bool) (xs : List Nat) :
    (fireSeries raises xs).1 =
      xs.takeWhile (fun c => !raises c) ++ (xs.dropWhile (fun c => !raises c)).take 1 := by
  induction xs with
  | nil => simp [fireSeries]
  | cons c rest ih =>
    by_cases h : raises c
    · simp [fireSeries, h]
    · simp only [Bool.not_eq_true] at h
      simp [fireSeries, h, ih]

theorem foldl_register_callbacks (cs : List Nat) (l : Lifecycle) :
    (cs.foldl Lifecycle.register l).callbacks = l.callbacks ++ cs := by
  induction cs generalizing l with
  | nil => simp
  | cons c rest ih => simp [List.foldl_cons, ih, Lifecycle.register]

theorem fireConcurrent_spawned (beh : Nat → CbBehavior) (xs : List Nat) :
    (fireConcurrent beh xs).spawned = xs := by
  induction xs with
  | nil => rfl
  | cons c rest ih =>
    by_cases hY : (beh c).yields = 0 <;> by_cases hR : (beh c).raises <;>
      simp [fireConcurrent, hY, hR, ih]

theorem fireConcurrent_completed (beh : Nat → CbBehavior) (xs : List Nat) :
    (fireConcurrent beh xs).completed =
      xs.filter (fun c => ((beh c).yields == 0) && !(beh c).raises) := by
  induction xs with
  | nil => rfl
  | cons c rest ih =>
    by_cases hY : (beh c).yields = 0 <;> by_cases hR : (beh c).raises <;>
      simp [fireConcurrent, hY, hR, ih, List.filter_cons]

theorem fireConcurrent_raised (beh : Nat → CbBehavior) (xs : List Nat) :
    (fireConcurrent beh xs).raisedUnits =
      xs.filter (fun c => ((beh c).yields == 0) && (beh c).raises) := by
  induction xs with
  | nil => rfl
  | cons c rest ih =>
    by_cases hY : (beh c).yields = 0 <;> by_cases hR : (beh c).raises <;>
      simp [fireConcurrent, hY, hR, ih, List.filter_cons]

theorem fireConcurrent_pending (beh : Nat → CbBehavior) (xs : List Nat) :
    (fireConcurrent beh xs).pendingUnits =
      (xs.filter (fun c => !((beh c).yields == 0))).map
        (fun c => ConcUnit.mk c ((beh c).yields - 1) (beh c).raises) := by
  induction xs with
  | nil => rfl
  | cons c rest ih =>
    by_cases hY : (beh c).yields = 0 <;> by_cases hR : (beh c).raises <;>
      simp [fireConcurrent, hY, hR, ih, List.filter_cons]

theorem fireConcurrent_caller (beh : Nat → CbBehavior) (xs : List Nat) :
    (fireConcurrent beh xs).callerRaised = false := by
  cases xs with
  | nil => rfl
  | cons c rest =>
    by_cases hY : (beh c).yields = 0 <;> by_cases hR : (beh c).raises <;>
      simp [fireConcurrent, hY, hR]

theorem filter_ne_of_agree (P P' : Nat → Bool) (c : Nat) (xs : List Nat)
    (h : ∀ x, x ≠ c → P' x = P x) :
    (xs.filter P').filter (fun x => x != c) = (xs.filter P).filter (fun x => x != c) := by
  induction xs with
  | nil => rfl
  | cons a t ih =>
    by_cases hac : a = c
    · subst hac
      by_cases hP' : P' a <;> by_cases hP : P a <;>
        simp [List.filter_cons, hP', hP, ih]
    · have hPP : P' a = P a := h a hac
      by_cases hP : P a <;>
        simp [List.filter_cons, hPP, hP, ih, hac]

/-- C2 counterexample: after registering callbacks 1, 2, 3 and
unregistering 1, `unregister`'s swap-remove leaves the callback list as
`[3, 2]`, so a serial `fire()` invokes 3 before 2 even though 2 was
registered before 3: the invocation order differs from the registration
order of the currently-registered callbacks. -/
theorem C2_serial_fire_cex :
    (fireSeries (fun _ => false) lcex.callbacks).1 = [3, 2] ∧
    currentRegOrder lcex = [2, 3] ∧
    (fireSeries (fun _ => false) lcex.callbacks).1 ≠ currentRegOrder lcex := by
  decide

/-- C2 (amended): a serial-mode `fire()` invokes the callbacks of the
dispatcher's current internal list strictly in list order, stopping after
the first raising callback (the raiser runs, and no callback listed after
it is invoked in that `fire()` call); for every history consisting only of
`register` operations the internal list equals the registration sequence,
so in the absence of `unregister` the invocation order is exactly
registration order.  (Because `unregister` swap-removes, the list order —
and hence the fire order — can differ from registration order once a
non-final callback has been unregistered.) -/
theorem C2_serial_fire_amended (raises : Nat → Bool) (l : Lifecycle) (cs : List Nat) :
    (fireSeries raises l.callbacks).1 =
        l.callbacks.takeWhile (fun c => !raises c) ++
          (l.callbacks.dropWhile (fun c => !raises c)).take 1 ∧
    (cs.foldl Lifecycle.register Lifecycle.empty).callbacks = cs ∧
    (fireSeries raises (cs.foldl Lifecycle.register Lifecycle.empty).callbacks).1 =
        cs.takeWhile (fun c => !raises c) ++ (cs.dropWhile (fun c => !raises c)).take 1 := by
  refine ⟨fireSeries_eq raises l.callbacks, ?_, ?_⟩
  · simpa using foldl_register_callbacks cs Lifecycle.empty
  · have h : (cs.foldl Lifecycle.register Lifecycle.empty).callbacks = cs := by
      simpa using foldl_register_callbacks cs Lifecycle.empty
    rw [h] at *
    exact fireSeries_eq raises cs

/-- C8: a concurrent-mode `fire()` spawns exactly one unit per entry of
the callback list, in list order; it returns without waiting — every
callback whose behavior yields is still incomplete (parked as a pending
unit) when `fire()` returns; the caller of `fire()` never raises; and the
synchronous outcome of every other callback is unchanged when one
callback's behavior (e.g. raising) changes. -/
theorem C8_concurrent_fire (l : Lifecycle) (beh : Nat → CbBehavior) :
    (fireConcurrent beh l.callbacks).spawned = l.callbacks ∧
    (fireConcurrent beh l.callbacks).callerRaised = false ∧
    (∀ c, c ∈ l.callbacks → 0 < (beh c).yields →
      c ∈ (fireConcurrent beh l.callbacks).pendingUnits.map ConcUnit.cb ∧
        c ∉ (fireConcurrent beh l.callbacks).completed) ∧
    (∀ beh' : Nat → CbBehavior, ∀ c : Nat, (∀ x, x ≠ c → beh' x = beh x) →
      (fireConcurrent beh' l.callbacks).spawned = (fireConcurrent beh l.callbacks).spawned ∧
        (fireConcurrent beh' l.callbacks).completed.filter (fun x => x != c) =
          (fireConcurrent beh l.callbacks).completed.filter (fun x => x != c) ∧
        (fireConcurrent beh' l.callbacks).raisedUnits.filter (fun x => x != c) =
          (fireConcurrent beh l.callbacks).raisedUnits.filter (fun x => x != c)) := by
  refine ⟨fireConcurrent_spawned beh l.callbacks, fireConcurrent_caller beh l.callbacks, ?_, ?_⟩
  · intro c hc hy
    have hne : ((beh c).yields == 0) = false := by
      simp only [beq_eq_false_iff_ne, ne_eq]
      omega
    constructor
    · rw [fireConcurrent_pending, List.map_map]
      have : (ConcUnit.cb ∘ fun c => ConcUnit.mk c ((beh c).yields - 1) (beh c).raises) = id := by
        funext x; rfl
      rw [this, List.map_id]
      simp [List.mem_filter, hc, hne]
    · rw [fireConcurrent_completed]
      intro hmem
      rw [List.mem_filter] at hmem
      simp [hne] at hmem
  · intro beh' c hagree
    refine ⟨by rw [fireConcurrent_spawned, fireConcurrent_spawned], ?_, ?_⟩
    · rw [fireConcurrent_completed, fireConcurrent_completed]
      exact filter_ne_of_agree _ _ c l.callbacks
        (fun x hx => by rw [hagree x hx])
    · rw [fireConcurrent_raised, fireConcurrent_raised]
      exact filter_ne_of_agree _ _ c l.callbacks
        (fun x hx => by rw [hagree x hx])

/-- Witness for C8 at a concrete dispatcher: callbacks `[1, 2]` with
callback 1 yielding once and callback 2 raising synchronously. -/
theorem C8_concurrent_fire_witness :
    (1 : Nat) ∈ (fireConcurrent behW lconc.callbacks).pendingUnits.map ConcUnit.cb ∧
    (1 : Nat) ∉ (fireConcurrent behW lconc.callbacks).completed ∧
    (fireConcurrent behW lconc.callbacks).spawned = lconc.callbacks ∧
    (fireConcurrent behW lconc.callbacks).callerRaised = false := by
  refine ⟨?_, ?_, ?_, ?_⟩
  · exact ((C8_concurrent_fire lconc behW).2.2.1 1 (by decide) (by decide)).1
  · exact ((C8_concurrent_fire lconc behW).2.2.1 1 (by decide) (by decide)).2
  · exact (C8_concurrent_fire lconc behW).1
  · exact (C8_concurrent_fire lconc behW).2.1

theorem initLoopStep_eq (s : PState) (p : ProviderSpec) :
    initLoopStep s p =
      if p.hasInit then
        { s with
          numInitProviders := s.numInitProviders + 1
          initSpawned := s.initSpawned ++ [p.pid]
          completedInit :=
            s.completedInit + (if p.initYields = 0 ∧ p.initRaises = false then 1 else 0)
          initCompleted :=
            s.initCompleted ++ (if p.initYields = 0 ∧ p.initRaises = false then [p.pid] else [])
          initRaised :=
            s.initRaised ++ (if p.initYields = 0 ∧ p.initRaises = true then [p.pid] else [])
          pending :=
            s.pending ++
              (if p.initYields = 0 then []
               else [PendingUnit.mk p.pid (p.initYields - 1) p.initRaises])
          callerStatus := CStatus.running }
      else s := by
  by_cases hI : p.hasInit
  · by_cases hY : p.initYields = 0
    · cases hR : p.initRaises
      · simp [initLoopStep, spawnInitUnit, finishInit, hI, hY, hR]
      · simp [initLoopStep, spawnInitUnit, finishInit, hI, hY, hR]
    · simp [initLoopStep, spawnInitUnit, hI, hY]
  · simp [initLoopStep, hI]

theorem loop_unchanged (ps : List ProviderSpec) :
    ∀ s : PState,
      (ps.foldl initLoopStep s).providers = s.providers ∧
      (ps.foldl initLoopStep s).starting = s.starting ∧
      (ps.foldl initLoopStep s).started = s.started ∧
      (ps.foldl initLoopStep s).waiters = s.waiters ∧
      (ps.foldl initLoopStep s).resumedWaiters = s.resumedWaiters ∧
      (ps.foldl initLoopStep s).startSpawned = s.startSpawned ∧
      (ps.foldl initLoopStep s).callerResumes = s.callerResumes ∧
      (ps.foldl initLoopStep s).callerYielded = s.callerYielded ∧
      (ps.foldl initLoopStep s).awaitReturnedNow = s.awaitReturnedNow := by
  induction ps with
  | nil => intro s; exact ⟨rfl, rfl, rfl, rfl, rfl, rfl, rfl, rfl, rfl⟩
  | cons p t ih =>
    intro s
    rw [List.foldl_cons, initLoopStep_eq]
    by_cases hI : p.hasInit
    · simp only [hI, if_true]
      simpa using ih _
    · simp only [hI, Bool.false_eq_true, if_false]
      exact ih s

theorem finishInit_providers (pid : Nat) (r : Bool) (s : PState) :
    (finishInit pid r s).providers = s.providers := by
  unfold finishInit runPhase2
  split
  · rfl
  · dsimp only
    split <;> rfl

theorem finishInit_flagsOr (pid : Nat) (r : Bool) (s : PState)
    (h : (s.starting || s.started) = true) :
    ((finishInit pid r s).starting || (finishInit pid r s).started) = true := by
  unfold finishInit runPhase2
  split
  · exact h
  · dsimp only
    split
    · simp
    · exact h

theorem runStart_flags_true (s : PState) :
    ((runStart s).starting || (runStart s).started) = true := by
  by_cases hg : (s.starting || s.started) = true
  · simp [runStart, hg]
  · rw [runStart, if_neg hg]
    have hL := loop_unchanged s.providers { s with starting := true, callerStatus := CStatus.running }
    dsimp only
    split
    · simp [hL.2.1]
    · simp [runPhase2]

theorem step_flagsOr (s : PState) (e : Event)
    (h : (s.starting || s.started) = true) :
    ((step s e).starting || (step s e).started) = true := by
  cases e with
  | callStart => exact runStart_flags_true s
  | callAwait t =>
    show ((runAwait t s).starting || (runAwait t s).started) = true
    unfold runAwait
    split <;> exact h
  | tick c =>
    show ((tick c s).starting || (tick c s).started) = true
    unfold tick
    split
    · exact h
    · dsimp only
      split
      · exact finishInit_flagsOr _ _ _ h
      · exact h

theorem run_flagsOr (es : List Event) :
    ∀ s : PState, (s.starting || s.started) = true →
      ((run s es).starting || (run s es).started) = true := by
  induction es with
  | nil => intro s h; exact h
  | cons e t ih =>
    intro s h
    rw [run, List.foldl_cons]
    exact ih (step s e) (step_flagsOr s e h)

theorem step_providers (s : PState) (e : Event) :
    (step s e).providers = s.providers := by
  cases e with
  | callStart =>
    show (runStart s).providers = s.providers
    unfold runStart
    split
    · rfl
    · have hL := loop_unchanged s.providers { s with starting := true, callerStatus := CStatus.running }
      dsimp only
      split
      · simpa using hL.1
      · simpa [runPhase2] using hL.1
  | callAwait t =>
    show (runAwait t s).providers = s.providers
    unfold runAwait
    split <;> rfl
  | tick c =>
    show (tick c s).providers = s.providers
    unfold tick
    split
    · rfl
    · dsimp only
      split
      · exact finishInit_providers _ _ _
      · rfl

theorem run_providers (es : List Event) :
    ∀ s : PState, (run s es).providers = s.providers := by
  induction es with
  | nil => intro s; rfl
  | cons e t ih =>
    intro s
    rw [run, List.foldl_cons]
    rw [show List.foldl step (step s e) t = run (step s e) t from rfl]
    rw [ih (step s e), step_providers]

/-- C3: once `start()` has been called, any later call of `start()` is the
identity on the whole module state: no unit is spawned again, no flag
changes, no waiter is resumed, whether the second call happens during the
init phase or after startup completed. -/
theorem C3_start_idempotent (ps : List ProviderSpec) (es : List Event) :
    runStart (reach ps (Event.callStart :: es)) = reach ps (Event.callStart :: es) := by
  have h0 : ((step (initState ps) Event.callStart).starting ||
      (step (initState ps) Event.callStart).started) = true := by
    exact runStart_flags_true (initState ps)
  have h : ((reach ps (Event.callStart :: es)).starting ||
      (reach ps (Event.callStart :: es)).started) = true := by
    rw [reach, run, List.foldl_cons]
    exact run_flagsOr es _ h0
  rw [runStart, if_pos h]

theorem find_map_replace (q : ProviderSpec) :
    ∀ l : List ProviderSpec, l.any (fun x => x.pid == q.pid) = true →
      (l.map (fun x => if x.pid == q.pid then q else x)).find? (fun p => p.pid == q.pid) =
        some q := by
  intro l
  induction l with
  | nil => simp
  | cons a t ih =>
    intro h
    rw [List.map_cons]
    by_cases ha : (a.pid == q.pid) = true
    · rw [if_pos ha, List.find?_cons_of_pos _ (by simp)]
    · have ht : t.any (fun x => x.pid == q.pid) = true := by
        rw [List.any_cons] at h
        rcases Bool.or_eq_true_iff.mp h with h1 | h1
        · exact absurd h1 ha
        · exact h1
      rw [if_neg ha, List.find?_cons_of_neg _ (by simpa using ha)]
      exact ih ht

theorem find_append_absent (q : ProviderSpec) :
    ∀ l : List ProviderSpec, l.any (fun x => x.pid == q.pid) = false →
      (l ++ [q]).find? (fun p => p.pid == q.pid) = some q := by
  intro l
  induction l with
  | nil => simp
  | cons a t ih =>
    intro h
    rw [List.any_cons] at h
    have hab := Bool.or_eq_false_iff.mp h
    rw [List.cons_append, List.find?_cons_of_neg _ (by simp [hab.1])]
    exact ih hab.2

/-- C6: the `Provider()` registration decorator succeeds exactly when the
orchestrator is `NotStarted` (neither `starting` nor `started`); once
`start()` has been invoked (state `Initializing` or `Started`) it fails
with the fatal error, and on failure the whole state — the registry map in
particular — is left unchanged. -/
theorem C6_register_guard :
    (∀ (s : PState) (p : ProviderSpec),
        (registerProvider s p).2 = none ↔ (s.starting = false ∧ s.started = false)) ∧
    (∀ (s : PState) (p : ProviderSpec),
        (registerProvider s p).2.isSome = true → (registerProvider s p).1 = s) ∧
    (∀ (ps : List ProviderSpec) (es : List Event) (p : ProviderSpec),
        ((registerProvider (reach ps (Event.callStart :: es)) p).2).isSome = true ∧
          (registerProvider (reach ps (Event.callStart :: es)) p).1 =
            reach ps (Event.callStart :: es)) := by
  refine ⟨?_, ?_, ?_⟩
  · intro s p
    by_cases hg : (s.starting || s.started) = true
    · have : s.starting = true ∨ s.started = true := by simpa using hg
      rcases this with h | h <;> simp [registerProvider, hg, h]
    · have hff : s.starting = false ∧ s.started = false := by
        constructor <;> [skip; skip] <;> revert hg <;> cases s.starting <;> cases s.started <;> simp
      by_cases he : s.providers.any (fun q => q.pid == p.pid) = true <;>
        simp [registerProvider, hg, he, hff.1, hff.2]
  · intro s p h
    by_cases hg : (s.starting || s.started) = true
    · rw [registerProvider, if_pos hg]
    · exfalso
      revert h
      by_cases he : s.providers.any (fun q => q.pid == p.pid) = true <;>
        simp [registerProvider, hg, he]
  · intro ps es p
    have hflags : ((reach ps (Event.callStart :: es)).starting ||
        (reach ps (Event.callStart :: es)).started) = true := by
      rw [reach, run, List.foldl_cons]
      exact run_flagsOr es _ (runStart_flags_true (initState ps))
    rw [registerProvider, if_pos hflags]
    exact ⟨rfl, rfl⟩

/-- Witness for C6: after `start()` has run, registering fails and leaves
the state unchanged; on the pristine state registration succeeds. -/
theorem C6_register_guard_witness :
    ((registerProvider (reach [] [Event.callStart]) pNoCaps).2).isSome = true ∧
    (registerProvider (reach [] [Event.callStart]) pNoCaps).1 = reach [] [Event.callStart] ∧
    (registerProvider (initState []) pNoCaps).2 = none := by
  refine ⟨(C6_register_guard.2.2 [] [] pNoCaps).1, (C6_register_guard.2.2 [] [] pNoCaps).2, ?_⟩
  exact (C6_register_guard.1 (initState []) pNoCaps).mpr ⟨rfl, rfl⟩

/-- C7: `get` fails iff the provider class was never registered,
independently of the orchestrator state — the lookup result is invariant
under every top-level event (before, during and after `start()`) — and for
a successfully registered provider, `get` returns exactly the singleton
instance stored at registration. -/
theorem C7_get_lookup :
    (∀ (s : PState) (pid : Nat),
        getProvider s pid = Except.error ("[Proton]: Failed to find provider") ↔
          ∀ p ∈ s.providers, p.pid ≠ pid) ∧
    (∀ (s : PState) (es : List Event) (pid : Nat),
        getProvider (run s es) pid = getProvider s pid) ∧
    (∀ (s : PState) (q : ProviderSpec) (es : List Event),
        (registerProvider s q).2 = none →
          getProvider (run (registerProvider s q).1 es) q.pid = Except.ok q.inst) := by
  refine ⟨?_, ?_, ?_⟩
  · intro s pid
    unfold getProvider
    cases hf : s.providers.find? (fun p => p.pid == pid) with
    | none =>
      constructor
      · intro _ p hp
        have := List.find?_eq_none.mp hf p hp
        simpa using this
      · intro _
        rfl
    | some r =>
      have hmem : r ∈ s.providers := List.mem_of_find?_eq_some hf
      have hpid : r.pid = pid := by simpa using List.find?_some hf
      constructor
      · intro hcontra
        exact absurd hcontra (by simp)
      · intro hall
        exact absurd hpid (hall r hmem)
  · intro s es pid
    unfold getProvider
    rw [run_providers]
  · intro s q es h
    by_cases hg : (s.starting || s.started) = true
    · rw [registerProvider, if_pos hg] at h
      simp at h
    · by_cases he : s.providers.any (fun x => x.pid == q.pid) = true
      · have hfind := find_map_replace q s.providers he
        have hreg : (registerProvider s q).1 =
            { s with providers :=
                s.providers.map (fun x => if x.pid == q.pid then q else x) } := by
          simp [registerProvider, hg, he]
        rw [hreg]
        unfold getProvider
        rw [run_providers]
        dsimp only
        rw [hfind]
      · have hfind := find_append_absent q s.providers (by simpa using he)
        have hreg : (registerProvider s q).1 = { s with providers := s.providers ++ [q] } := by
          simp [registerProvider, hg, he]
        rw [hreg]
        unfold getProvider
        rw [run_providers]
        dsimp only
        rw [hfind]

/-- Witness for C7: a concrete registration followed by `start()`; `get`
returns the stored instance, and `get` on the empty registry fails. -/
theorem C7_get_lookup_witness :
    getProvider (run (registerProvider (initState []) pInitSync).1 [Event.callStart])
        pInitSync.pid = Except.ok pInitSync.inst ∧
    getProvider (initState []) 1 = Except.error ("[Proton]: Failed to find provider") := by
  refine ⟨?_, ?_⟩
  · exact C7_get_lookup.2.2 (initState []) pInitSync [Event.callStart] rfl
  · exact (C7_get_lookup.1 (initState []) 1).mpr (by simp [initState])

theorem loop_eq (ps : List ProviderSpec) :
    ∀ s : PState, s.callerStatus = CStatus.running →
      ps.foldl initLoopStep s =
        { s with
          numInitProviders := s.numInitProviders + (initPids ps).length
          completedInit := s.completedInit + (syncOkPids ps).length
          initSpawned := s.initSpawned ++ initPids ps
          initCompleted := s.initCompleted ++ syncOkPids ps
          initRaised := s.initRaised ++ syncRaisePids ps
          pending := s.pending ++ pendingUnitsOf ps
          callerStatus := CStatus.running } := by
  induction ps with
  | nil =>
    intro s hs
    simp only [List.foldl_nil, initPids, syncOkPids, syncRaisePids, pendingUnitsOf,
      List.filter_nil, List.map_nil, List.length_nil, Nat.add_zero, List.append_nil]
    rw [← hs]
  | cons p t ih =>
    intro s hs
    rw [List.foldl_cons, initLoopStep_eq]
    by_cases hI : p.hasInit = true
    · rw [if_pos hI, ih _ rfl]
      by_cases hY : p.initYields = 0
      · cases hR : p.initRaises
        · simp [initPids, syncOkPids, syncRaisePids, pendingUnitsOf, List.filter_cons,
            hI, hY, hR, List.append_assoc]
          omega
        · simp [initPids, syncOkPids, syncRaisePids, pendingUnitsOf, List.filter_cons,
            hI, hY, hR, List.append_assoc]
          omega
      · simp [initPids, syncOkPids, syncRaisePids, pendingUnitsOf, List.filter_cons,
          hI, hY, List.append_assoc]
        omega
    · rw [if_neg hI, ih _ hs]
      simp [initPids, syncOkPids, syncRaisePids, pendingUnitsOf, List.filter_cons, hI]

theorem perm_move_head (co ra pm : List Nat) (x : Nat) :
    (co ++ ra ++ (x :: pm)).Perm ((co ++ [x]) ++ ra ++ pm) := by
  rw [← Multiset.coe_eq_coe]
  simp only [← Multiset.coe_add, ← Multiset.cons_coe, ← Multiset.singleton_add,
    Multiset.coe_singleton]
  abel

theorem perm_move_mid (co ra pm : List Nat) (x : Nat) :
    (co ++ ra ++ (x :: pm)).Perm (co ++ (ra ++ [x]) ++ pm) := by
  rw [← Multiset.coe_eq_coe]
  simp only [← Multiset.coe_add, ← Multiset.cons_coe, ← Multiset.singleton_add,
    Multiset.coe_singleton]
  abel

theorem perm_rotate_pending (co ra pm : List Nat) (x : Nat) :
    (co ++ ra ++ (x :: pm)).Perm (co ++ ra ++ (pm ++ [x])) := by
  rw [← Multiset.coe_eq_coe]
  simp only [← Multiset.coe_add, ← Multiset.cons_coe, ← Multiset.singleton_add,
    Multiset.coe_singleton]
  abel

theorem perm_insert_mid (A B C : List Nat) (x : Nat) :
    (x :: (A ++ B ++ C)).Perm (A ++ (x :: B) ++ C) := by
  rw [← Multiset.coe_eq_coe]
  simp only [← Multiset.coe_add, ← Multiset.cons_coe, ← Multiset.singleton_add,
    Multiset.coe_singleton]
  abel

theorem perm_insert_last (A B C : List Nat) (x : Nat) :
    (x :: (A ++ B ++ C)).Perm (A ++ B ++ (x :: C)) := by
  rw [← Multiset.coe_eq_coe]
  simp only [← Multiset.coe_add, ← Multiset.cons_coe, ← Multiset.singleton_add,
    Multiset.coe_singleton]
  abel

theorem initPids_partition (ps : List ProviderSpec) :
    (initPids ps).Perm
      (syncOkPids ps ++ syncRaisePids ps ++ (pendingUnitsOf ps).map PendingUnit.pid) := by
  induction ps with
  | nil => simp [initPids, syncOkPids, syncRaisePids, pendingUnitsOf]
  | cons p t ih =>
    rw [← Multiset.coe_eq_coe] at ih ⊢
    simp only [initPids, syncOkPids, syncRaisePids, pendingUnitsOf] at ih ⊢
    by_cases hI : p.hasInit = true
    · by_cases hY : p.initYields = 0
      · cases hR : p.initRaises
        · simp only [List.filter_cons, hI, hY, hR]
          simp only [beq_self_eq_true, Bool.and_true, Bool.and_false, Bool.true_and,
            Bool.not_false, Bool.not_true, if_true, if_false, Bool.and_self]
          simp [← Multiset.cons_coe, ← Multiset.coe_add, ← Multiset.singleton_add,
            Multiset.coe_singleton] at ih ⊢
          rw [ih]
          try abel
        · simp only [List.filter_cons, hI, hY, hR]
          simp only [beq_self_eq_true, Bool.and_true, Bool.and_false, Bool.true_and,
            Bool.not_false, Bool.not_true, if_true, if_false, Bool.and_self]
          simp [← Multiset.cons_coe, ← Multiset.coe_add, ← Multiset.singleton_add,
            Multiset.coe_singleton] at ih ⊢
          rw [ih]
          try abel
      · have hY2 : (p.initYields == 0) = false := by
          simpa using hY
        simp only [List.filter_cons, hI, hY2]
        simp only [Bool.and_true, Bool.and_false, Bool.true_and, Bool.not_false,
          Bool.not_true, if_true, if_false, Bool.and_self]
        simp [← Multiset.cons_coe, ← Multiset.coe_add, ← Multiset.singleton_add,
          Multiset.coe_singleton] at ih ⊢
        rw [ih]
        try abel
    · have hI2 : p.hasInit = false := by
        simpa using hI
      simp only [List.filter_cons, hI2]
      simp only [Bool.false_and, if_false]
      simp [← Multiset.cons_coe, ← Multiset.coe_add, ← Multiset.singleton_add,
        Multiset.coe_singleton] at ih ⊢
      rw [ih]

theorem pending_perm_getD (xs : List PendingUnit) :
    ∀ i : Nat, i < xs.length →
      xs.Perm (xs.getD i (PendingUnit.mk 0 0 false) :: xs.eraseIdx i) := by
  induction xs with
  | nil => intro i h; simp at h
  | cons a t ih =>
    intro i h
    cases i with
    | zero => simp [List.getD]
    | succ j =>
      have hj : j < t.length := by simpa using h
      have hperm := ih j hj
      have h1 : (a :: t).Perm (a :: (t.getD j (PendingUnit.mk 0 0 false) :: t.eraseIdx j)) :=
        hperm.cons a
      refine h1.trans ?_
      exact List.Perm.swap _ _ _

theorem PInv_started_nil {ps : List ProviderSpec} {s : PState} (h : PInv ps s)
    (hst : s.started = true) : s.pending = [] ∧ s.initRaised = [] := by
  have hlen := h.perm.length_eq
  rw [List.length_append, List.length_append, List.length_map] at hlen
  have h1 := h.completed_len
  have h2 := h.num_len
  have h3 := (h.started_all hst).1
  constructor
  · exact List.length_eq_zero.mp (by omega)
  · exact List.length_eq_zero.mp (by omega)

theorem inv_runAwait (ps : List ProviderSpec) (t : Nat) (s : PState) (h : PInv ps s) :
    PInv ps (runAwait t s) := by
  by_cases hst : s.started = true
  · rw [runAwait, if_pos hst]
    exact ⟨h.providers_eq, h.completed_len, h.num_len, h.perm, h.spawned_eq, h.idle_all,
      h.started_all, h.starting_all, h.pending_link, h.raised_link, h.completed_link,
      h.resumes_le, h.resumes_started, h.yielded_spawned, h.allsync_resumes⟩
  · rw [runAwait, if_neg hst]
    exact ⟨h.providers_eq, h.completed_len, h.num_len, h.perm, h.spawned_eq, h.idle_all,
      fun hc => absurd hc hst, h.starting_all, h.pending_link, h.raised_link,
      h.completed_link, h.resumes_le, h.resumes_started, h.yielded_spawned,
      h.allsync_resumes⟩

theorem inv_tick (ps : List ProviderSpec) (c : Nat) (s : PState) (h : PInv ps s) :
    PInv ps (tick c s) := by
  rw [tick]
  by_cases hp : s.pending.length = 0
  · rw [if_pos hp]
    exact h
  · rw [if_neg hp]
    dsimp only
    have hplen : 0 < s.pending.length := Nat.pos_of_ne_zero hp
    have hilt : c % s.pending.length < s.pending.length := Nat.mod_lt _ hplen
    have hperm := pending_perm_getD s.pending (c % s.pending.length) hilt
    set u := s.pending.getD (c % s.pending.length) (PendingUnit.mk 0 0 false) with hudef
    set E := s.pending.eraseIdx (c % s.pending.length) with hEdef
    have humem : u ∈ s.pending := hperm.symm.subset (List.mem_cons_self _ _)
    obtain ⟨pu, hpu_mem, hpu_pid, hpu_init, hpu_raises, hpu_y⟩ := h.pending_link u humem
    have hsub : ∀ x ∈ E, x ∈ s.pending :=
      fun x hx => hperm.symm.subset (List.mem_cons_of_mem _ hx)
    have hmap : (s.pending.map PendingUnit.pid).Perm (u.pid :: E.map PendingUnit.pid) := by
      simpa using hperm.map PendingUnit.pid
    have hstarting : s.starting = true := by
      by_cases hst : s.started = true
      · have h0 := (PInv_started_nil h hst).1
        rw [h0] at hplen
        simp at hplen
      · by_cases hsg : s.starting = true
        · exact hsg
        · have hidle := h.idle_all (by simpa using hsg) (by simpa using hst)
          rw [hidle.2.1] at hplen
          simp at hplen
    obtain ⟨hstat, hyld, hneq, hsp0, hnst⟩ := h.starting_all hstarting
    have hres0 : s.callerResumes = 0 := by
      by_cases hr1 : s.callerResumes = 1
      · have := h.resumes_started hr1
        rw [hnst] at this
        exact Bool.noConfusion this
      · have := h.resumes_le
        omega
    split
    next hyl =>
      rw [finishInit]
      cases hur : u.raises
      case false =>
        rw [if_neg (by simp)]
        dsimp only
        by_cases heq : s.completedInit + 1 = s.numInitProviders
        · rw [if_pos ⟨heq, hstat⟩]
          refine ⟨h.providers_eq, ?_, h.num_len, ?_, fun _ => h.spawned_eq (Or.inl hstarting),
            fun _ hc => Bool.noConfusion hc, ?_, fun hc => Bool.noConfusion hc,
            fun x hx => h.pending_link x (hsub x hx), h.raised_link, ?_, ?_,
            fun _ => rfl, h.yielded_spawned, ?_⟩
          · show s.completedInit + 1 = (s.initCompleted ++ [u.pid]).length
            rw [List.length_append, h.completed_len]
            rfl
          · show s.initSpawned.Perm
              ((s.initCompleted ++ [u.pid]) ++ s.initRaised ++ E.map PendingUnit.pid)
            exact h.perm.trans ((List.Perm.append_left _ hmap).trans (perm_move_head _ _ _ _))
          · intro _
            refine ⟨heq, rfl, rfl, rfl, ?_⟩
            show s.startSpawned ++ startPids s.providers = startPids ps
            rw [hsp0, h.providers_eq, List.nil_append]
          · intro pid hpid
            rcases List.mem_append.mp hpid with hin | hin
            · exact h.completed_link pid hin
            · have hup : pid = u.pid := by simpa using hin
              refine ⟨pu, hpu_mem, ?_, hpu_init, ?_⟩
              · rw [hpu_pid, hup]
              · rw [← hpu_raises, hur]
          · show s.callerResumes + 1 ≤ 1
            omega
          · intro hall
            exact absurd (hall pu hpu_mem hpu_init) (by omega)
        · rw [if_neg (fun hand => heq hand.1)]
          refine ⟨h.providers_eq, ?_, h.num_len, ?_, fun _ => h.spawned_eq (Or.inl hstarting),
            ?_, ?_, ?_, fun x hx => h.pending_link x (hsub x hx), h.raised_link, ?_,
            h.resumes_le, h.resumes_started, h.yielded_spawned, h.allsync_resumes⟩
          · show s.completedInit + 1 = (s.initCompleted ++ [u.pid]).length
            rw [List.length_append, h.completed_len]
            rfl
          · show s.initSpawned.Perm
              ((s.initCompleted ++ [u.pid]) ++ s.initRaised ++ E.map PendingUnit.pid)
            exact h.perm.trans ((List.Perm.append_left _ hmap).trans (perm_move_head _ _ _ _))
          · intro hc _
            rw [hstarting] at hc
            exact Bool.noConfusion hc
          · intro hc
            rw [hnst] at hc
            exact Bool.noConfusion hc
          · intro _
            exact ⟨hstat, hyld, heq, hsp0, hnst⟩
          · intro pid hpid
            rcases List.mem_append.mp hpid with hin | hin
            · exact h.completed_link pid hin
            · have hup : pid = u.pid := by simpa using hin
              refine ⟨pu, hpu_mem, ?_, hpu_init, ?_⟩
              · rw [hpu_pid, hup]
              · rw [← hpu_raises, hur]
      case true =>
        rw [if_pos rfl]
        refine ⟨h.providers_eq, h.completed_len, h.num_len, ?_,
          fun _ => h.spawned_eq (Or.inl hstarting), ?_, ?_, ?_,
          fun x hx => h.pending_link x (hsub x hx), ?_, h.completed_link,
          h.resumes_le, h.resumes_started, h.yielded_spawned, h.allsync_resumes⟩
        · show s.initSpawned.Perm
            (s.initCompleted ++ (s.initRaised ++ [u.pid]) ++ E.map PendingUnit.pid)
          exact h.perm.trans ((List.Perm.append_left _ hmap).trans (perm_move_mid _ _ _ _))
        · intro hc _
          rw [hstarting] at hc
          exact Bool.noConfusion hc
        · intro hc
          rw [hnst] at hc
          exact Bool.noConfusion hc
        · intro _
          exact ⟨hstat, hyld, hneq, hsp0, hnst⟩
        · intro pid hpid
          rcases List.mem_append.mp hpid with hin | hin
          · exact h.raised_link pid hin
          · have hup : pid = u.pid := by simpa using hin
            refine ⟨pu, hpu_mem, ?_, hpu_init, ?_⟩
            · rw [hpu_pid, hup]
            · rw [← hpu_raises, hur]
    next hyl =>
      refine ⟨h.providers_eq, h.completed_len, h.num_len, ?_,
        fun _ => h.spawned_eq (Or.inl hstarting), ?_, ?_, ?_, ?_, h.raised_link,
        h.completed_link, h.resumes_le, h.resumes_started, h.yielded_spawned,
        h.allsync_resumes⟩
      · show s.initSpawned.Perm (s.initCompleted ++ s.initRaised ++
          ((E ++ [PendingUnit.mk u.pid (u.yieldsLeft - 1) u.raises]).map PendingUnit.pid))
        have hm : ((E ++ [PendingUnit.mk u.pid (u.yieldsLeft - 1) u.raises]).map
            PendingUnit.pid) = E.map PendingUnit.pid ++ [u.pid] := by
          simp
        rw [hm]
        exact h.perm.trans ((List.Perm.append_left _ hmap).trans (perm_rotate_pending _ _ _ _))
      · intro hc _
        rw [hstarting] at hc
        exact Bool.noConfusion hc
      · intro hc
        rw [hnst] at hc
        exact Bool.noConfusion hc
      · intro _
        exact ⟨hstat, hyld, hneq, hsp0, hnst⟩
      · intro x hx
        rcases List.mem_append.mp hx with hin | hin
        · exact h.pending_link x (hsub x hin)
        · have hxu : x = PendingUnit.mk u.pid (u.yieldsLeft - 1) u.raises := by
            simpa using hin
          refine ⟨pu, hpu_mem, ?_, hpu_init, ?_, hpu_y⟩
          · rw [hpu_pid, hxu]
          · rw [hxu, ← hpu_raises]

theorem syncOkPids_link (ps : List ProviderSpec) :
    ∀ pid ∈ syncOkPids ps, ∃ p, p ∈ ps ∧ p.pid = pid ∧ p.hasInit = true ∧
      p.initRaises = false := by
  intro pid hpid
  simp only [syncOkPids, List.mem_map, List.mem_filter] at hpid
  obtain ⟨p, ⟨hp, hcond⟩, hpe⟩ := hpid
  simp only [Bool.and_eq_true, beq_iff_eq, Bool.not_eq_true'] at hcond
  exact ⟨p, hp, hpe, hcond.1.1, hcond.2⟩

theorem syncRaisePids_link (ps : List ProviderSpec) :
    ∀ pid ∈ syncRaisePids ps, ∃ p, p ∈ ps ∧ p.pid = pid ∧ p.hasInit = true ∧
      p.initRaises = true := by
  intro pid hpid
  simp only [syncRaisePids, List.mem_map, List.mem_filter] at hpid
  obtain ⟨p, ⟨hp, hcond⟩, hpe⟩ := hpid
  simp only [Bool.and_eq_true, beq_iff_eq] at hcond
  exact ⟨p, hp, hpe, hcond.1.1, hcond.2⟩

theorem pendingUnitsOf_link (ps : List ProviderSpec) :
    ∀ x ∈ pendingUnitsOf ps, ∃ p, p ∈ ps ∧ p.pid = x.pid ∧ p.hasInit = true ∧
      x.raises = p.initRaises ∧ 0 < p.initYields := by
  intro x hx
  simp only [pendingUnitsOf, List.mem_map, List.mem_filter] at hx
  obtain ⟨p, ⟨hp, hcond⟩, hpe⟩ := hx
  simp only [Bool.and_eq_true, Bool.not_eq_true', beq_eq_false_iff_ne, ne_eq] at hcond
  refine ⟨p, hp, ?_, hcond.1, ?_, ?_⟩
  · rw [← hpe]
  · rw [← hpe]
  · omega

theorem inv_runStart (ps : List ProviderSpec) (s : PState) (h : PInv ps s) :
    PInv ps (runStart s) := by
  by_cases hg : (s.starting || s.started) = true
  · rw [runStart, if_pos hg]
    exact h
  · rw [runStart, if_neg hg]
    dsimp only
    have hsg : s.starting = false := by
      revert hg
      cases s.starting <;> simp
    have hst : s.started = false := by
      revert hg
      cases s.starting <;> cases s.started <;> simp
    obtain ⟨hsp, hpend, hcomp, hraise, hss, hstat, hres, hyld⟩ := h.idle_all hsg hst
    have hc0 : s.completedInit = 0 := by
      rw [h.completed_len, hcomp]
      rfl
    have hn0 : s.numInitProviders = 0 := by
      rw [h.num_len, hsp]
      rfl
    have hloop := loop_eq s.providers { s with starting := true, callerStatus := CStatus.running } rfl
    rw [h.providers_eq] at hloop ⊢
    rw [hloop]
    have hpartlen := (initPids_partition ps).length_eq
    rw [List.length_append, List.length_append, List.length_map] at hpartlen
    split
    next hne =>
      have hne2 : (syncOkPids ps).length ≠ (initPids ps).length := by
        intro hcontra
        exact hne (by simp [hc0, hn0, hcontra])
      refine ⟨rfl, ?_, ?_, ?_, ?_, ?_, ?_, ?_, ?_, ?_, ?_, ?_, ?_, ?_, ?_⟩
      · show s.completedInit + (syncOkPids ps).length = (s.initCompleted ++ syncOkPids ps).length
        rw [List.length_append, hc0, hcomp]
        rfl
      · show s.numInitProviders + (initPids ps).length = (s.initSpawned ++ initPids ps).length
        rw [List.length_append, hn0, hsp]
        rfl
      · show (s.initSpawned ++ initPids ps).Perm ((s.initCompleted ++ syncOkPids ps) ++
          (s.initRaised ++ syncRaisePids ps) ++ (s.pending ++ pendingUnitsOf ps).map PendingUnit.pid)
        rw [hsp, hcomp, hraise, hpend, List.nil_append, List.nil_append, List.nil_append,
          List.nil_append]
        exact initPids_partition ps
      · intro _
        show s.initSpawned ++ initPids ps = initPids ps
        rw [hsp, List.nil_append]
      · intro hcf _
        exact Bool.noConfusion hcf
      · intro hc
        rw [hst] at hc
        exact Bool.noConfusion hc
      · intro _
        refine ⟨rfl, rfl, ?_, ?_, hst⟩
        · show s.completedInit + (syncOkPids ps).length ≠
            s.numInitProviders + (initPids ps).length
          rw [hc0, hn0]
          simpa using hne2
        · show s.startSpawned = []
          exact hss
      · intro x hx
        rw [hpend, List.nil_append] at hx
        exact pendingUnitsOf_link ps x hx
      · intro pid hpid
        rw [hraise, List.nil_append] at hpid
        exact syncRaisePids_link ps pid hpid
      · intro pid hpid
        rw [hcomp, List.nil_append] at hpid
        obtain ⟨p, hp, hpe, hinit, hraises⟩ := syncOkPids_link ps pid hpid
        exact ⟨p, hp, hpe, hinit, hraises⟩
      · show s.callerResumes ≤ 1
        exact h.resumes_le
      · intro hc
        rw [hres] at hc
        exact absurd hc (by decide)
      · intro _
        show s.initSpawned ++ initPids ps ≠ []
        rw [hsp, List.nil_append]
        intro hnil
        have h1 : (initPids ps).length = 0 := by
          rw [hnil]
          rfl
        exact hne2 (by omega)
      · intro _
        exact hres
    next hne =>
      have hequ : s.completedInit + (syncOkPids ps).length =
          s.numInitProviders + (initPids ps).length := not_ne_iff.mp hne
      refine ⟨rfl, ?_, ?_, ?_, ?_, ?_, ?_, ?_, ?_, ?_, ?_, ?_, ?_, ?_, ?_⟩
      · show s.completedInit + (syncOkPids ps).length = (s.initCompleted ++ syncOkPids ps).length
        rw [List.length_append, hc0, hcomp]
        rfl
      · show s.numInitProviders + (initPids ps).length = (s.initSpawned ++ initPids ps).length
        rw [List.length_append, hn0, hsp]
        rfl
      · show (s.initSpawned ++ initPids ps).Perm ((s.initCompleted ++ syncOkPids ps) ++
          (s.initRaised ++ syncRaisePids ps) ++ (s.pending ++ pendingUnitsOf ps).map PendingUnit.pid)
        rw [hsp, hcomp, hraise, hpend, List.nil_append, List.nil_append, List.nil_append,
          List.nil_append]
        exact initPids_partition ps
      · intro _
        show s.initSpawned ++ initPids ps = initPids ps
        rw [hsp, List.nil_append]
      · intro _ hcf
        exact Bool.noConfusion hcf
      · intro _
        refine ⟨hequ, rfl, rfl, rfl, ?_⟩
        show s.startSpawned ++ startPids ps = startPids ps
        rw [hss, List.nil_append]
      · intro hcf
        exact Bool.noConfusion hcf
      · intro x hx
        rw [hpend, List.nil_append] at hx
        exact pendingUnitsOf_link ps x hx
      · intro pid hpid
        rw [hraise, List.nil_append] at hpid
        exact syncRaisePids_link ps pid hpid
      · intro pid hpid
        rw [hcomp, List.nil_append] at hpid
        exact syncOkPids_link ps pid hpid
      · show s.callerResumes ≤ 1
        exact h.resumes_le
      · intro _
        rfl
      · intro hc
        rw [hyld] at hc
        exact Bool.noConfusion hc
      · intro _
        exact hres

theorem inv_step (ps : List ProviderSpec) (s : PState) (e : Event) (h : PInv ps s) :
    PInv ps (step s e) := by
  cases e with
  | callStart => exact inv_runStart ps s h
  | callAwait t => exact inv_runAwait ps t s h
  | tick c => exact inv_tick ps c s h

theorem inv_initState (ps : List ProviderSpec) : PInv ps (initState ps) := by
  refine ⟨rfl, rfl, rfl, by simp [initState], ?_, ?_, ?_, ?_, ?_, ?_, ?_, ?_, ?_, ?_, ?_⟩
  · intro hc
    rcases hc with hc | hc <;> exact Bool.noConfusion hc
  · intro _ _
    exact ⟨rfl, rfl, rfl, rfl, rfl, rfl, rfl, rfl⟩
  · intro hc
    exact Bool.noConfusion hc
  · intro hc
    exact Bool.noConfusion hc
  · intro x hx
    exact absurd hx (List.not_mem_nil x)
  · intro x hx
    exact absurd hx (List.not_mem_nil x)
  · intro x hx
    exact absurd hx (List.not_mem_nil x)
  · exact Nat.zero_le 1
  · intro hc
    simp [initState] at hc
  · intro hc
    exact Bool.noConfusion hc
  · intro _
    rfl

theorem inv_run (ps : List ProviderSpec) (es : List Event) :
    ∀ s : PState, PInv ps s → PInv ps (run s es) := by
  induction es with
  | nil => intro s h; exact h
  | cons e t ih =>
    intro s h
    rw [run, List.foldl_cons]
    exact ih (step s e) (inv_step ps s e h)

theorem inv_reach (ps : List ProviderSpec) (es : List Event) : PInv ps (reach ps es) :=
  inv_run ps es (initState ps) (inv_initState ps)

/-- C1: whenever a Phase 2 unit has been spawned (or the orchestrator has
reached `Started`), the init barrier has closed: the completion count
equals the number of init-capable providers, no init unit is still pending
or has raised, every init-capable provider's `protonInit` has completed,
and exactly one Phase 2 unit was spawned per start-capable provider. -/
theorem C1_phase2_after_barrier (ps : List ProviderSpec) (es : List Event) :
    (reach ps es).startSpawned ≠ [] ∨ (reach ps es).started = true →
      (reach ps es).started = true ∧
      (reach ps es).completedInit = (reach ps es).numInitProviders ∧
      (reach ps es).numInitProviders = (initPids ps).length ∧
      (reach ps es).startSpawned = startPids ps ∧
      (reach ps es).pending = [] ∧
      (reach ps es).initRaised = [] ∧
      (∀ p ∈ ps, p.hasInit = true → p.pid ∈ (reach ps es).initCompleted) := by
  intro hyp
  have h := inv_reach ps es
  have hstarted : (reach ps es).started = true := by
    rcases hyp with hsp | hst
    · by_cases hst : (reach ps es).started = true
      · exact hst
      · exfalso
        by_cases hsg : (reach ps es).starting = true
        · exact hsp (h.starting_all hsg).2.2.2.1
        · exact hsp (h.idle_all (by simpa using hsg) (by simpa using hst)).2.2.2.2.1
    · exact hst
  obtain ⟨hcount, _, _, _, hstartsp⟩ := h.started_all hstarted
  obtain ⟨hpnil, hrnil⟩ := PInv_started_nil h hstarted
  refine ⟨hstarted, hcount, ?_, hstartsp, hpnil, hrnil, ?_⟩
  · rw [h.num_len, h.spawned_eq (Or.inr hstarted)]
  · intro p hp hinit
    have hpid : p.pid ∈ (reach ps es).initSpawned := by
      rw [h.spawned_eq (Or.inr hstarted)]
      simp only [initPids, List.mem_map, List.mem_filter]
      exact ⟨p, ⟨hp, hinit⟩, rfl⟩
    have := h.perm.subset hpid
    rw [hpnil, hrnil] at this
    simpa using this

/-- Witness for C1: a single synchronously-initializing provider with a
`protonStart` method; after `start()` the Phase 2 unit for it is spawned
and its init is recorded complete. -/
theorem C1_phase2_after_barrier_witness :
    (reach [pInitSync] [Event.callStart]).startSpawned ≠ [] ∧
    (reach [pInitSync] [Event.callStart]).started = true ∧
    (reach [pInitSync] [Event.callStart]).completedInit =
      (reach [pInitSync] [Event.callStart]).numInitProviders ∧
    (reach [pInitSync] [Event.callStart]).startSpawned = startPids [pInitSync] ∧
    (1 : Nat) ∈ (reach [pInitSync] [Event.callStart]).initCompleted := by
  have h := C1_phase2_after_barrier [pInitSync] [Event.callStart] (Or.inl (by decide))
  exact ⟨by decide, h.1, h.2.1, h.2.2.2.1, h.2.2.2.2.2.2 pInitSync (by decide) (by decide)⟩

/-- C9: every spawned init unit belongs to a provider that implements
`protonInit`, every spawned Phase 2 unit belongs to a provider that
implements `protonStart` (so a provider with neither capability never has
a unit spawned on its behalf), and when no registered provider implements
`protonInit` the caller of `start()` never yields (fast path). -/
theorem C9_fast_path (ps : List ProviderSpec) (es : List Event) :
    (∀ pid ∈ (reach ps es).initSpawned, ∃ p, p ∈ ps ∧ p.pid = pid ∧ p.hasInit = true) ∧
    (∀ pid ∈ (reach ps es).startSpawned, ∃ p, p ∈ ps ∧ p.pid = pid ∧ p.hasStart = true) ∧
    ((∀ p ∈ ps, p.hasInit = false) → (reach ps es).callerYielded = false) := by
  have h := inv_reach ps es
  have hflags : ((reach ps es).starting = true ∨ (reach ps es).started = true) ∨
      ((reach ps es).starting = false ∧ (reach ps es).started = false) := by
    cases h1 : (reach ps es).starting
    · cases h2 : (reach ps es).started
      · exact Or.inr ⟨rfl, rfl⟩
      · exact Or.inl (Or.inr rfl)
    · exact Or.inl (Or.inl rfl)
  refine ⟨?_, ?_, ?_⟩
  · intro pid hpid
    rcases hflags with hon | hoff
    · rw [h.spawned_eq hon] at hpid
      simp only [initPids, List.mem_map, List.mem_filter] at hpid
      obtain ⟨p, ⟨hp, hinit⟩, hpe⟩ := hpid
      exact ⟨p, hp, hpe, hinit⟩
    · rw [(h.idle_all hoff.1 hoff.2).1] at hpid
      exact absurd hpid (List.not_mem_nil pid)
  · intro pid hpid
    by_cases hst : (reach ps es).started = true
    · rw [(h.started_all hst).2.2.2.2] at hpid
      simp only [startPids, List.mem_map, List.mem_filter] at hpid
      obtain ⟨p, ⟨hp, hstart⟩, hpe⟩ := hpid
      exact ⟨p, hp, hpe, hstart⟩
    · by_cases hsg : (reach ps es).starting = true
      · rw [(h.starting_all hsg).2.2.2.1] at hpid
        exact absurd hpid (List.not_mem_nil pid)
      · rw [(h.idle_all (by simpa using hsg) (by simpa using hst)).2.2.2.2.1] at hpid
        exact absurd hpid (List.not_mem_nil pid)
  · intro hall
    by_cases hy : (reach ps es).callerYielded = true
    · exfalso
      have hsp := h.yielded_spawned hy
      have hinitnil : initPids ps = [] := by
        simp only [initPids, List.map_eq_nil_iff, List.filter_eq_nil_iff]
        intro p hp
        simp [hall p hp]
      rcases hflags with hon | hoff
      · rw [h.spawned_eq hon, hinitnil] at hsp
        exact hsp rfl
      · rw [(h.idle_all hoff.1 hoff.2).1] at hsp
        exact hsp rfl
    · simpa using hy

/-- Witness for C9: a provider with neither capability; after `start()`
no unit of any kind was spawned and the caller never yielded. -/
theorem C9_fast_path_witness :
    (reach [pNoCaps] [Event.callStart]).callerYielded = false ∧
    (reach [pNoCaps] [Event.callStart]).initSpawned = [] ∧
    (reach [pNoCaps] [Event.callStart]).startSpawned = [] := by
  refine ⟨(C9_fast_path [pNoCaps] [Event.callStart]).2.2 ?_, by decide, by decide⟩
  intro p hp
  simp only [List.mem_singleton] at hp
  rw [hp]
  rfl

/-- C10: the caller of `start()` is resumed by the barrier at most once;
when every init-capable provider completes synchronously during the
enumeration (no yields), the caller is never resumed at all — the
transient `completedInit == numInitProviders` states during the loop do
not fire the resume because the caller's status is not `suspended` — and
the caller is parked at the barrier only while some init unit is still
incomplete (pending or raised). -/
theorem C10_caller_resumed_once (ps : List ProviderSpec) (es : List Event) :
    (reach ps es).callerResumes ≤ 1 ∧
    ((∀ p ∈ ps, p.hasInit = true → p.initYields = 0) → (reach ps es).callerResumes = 0) ∧
    ((reach ps es).starting = true →
      (reach ps es).pending ≠ [] ∨ (reach ps es).initRaised ≠ []) := by
  have h := inv_reach ps es
  refine ⟨h.resumes_le, ?_, ?_⟩
  · intro hall
    exact h.allsync_resumes (fun p hp hinit => hall p hp hinit)
  · intro hsg
    obtain ⟨_, _, hneq, _, _⟩ := h.starting_all hsg
    by_contra hcon
    push_neg at hcon
    obtain ⟨hp, hr⟩ := hcon
    have hlen := h.perm.length_eq
    rw [hp, hr] at hlen
    simp at hlen
    exact hneq (by rw [h.completed_len, h.num_len]; omega)

/-- Witness for C10: two synchronous init providers; `start()` completes
without the barrier ever resuming the caller. -/
theorem C10_caller_resumed_once_witness :
    (reach [pInitSync, pInitSync2] [Event.callStart]).callerResumes = 0 ∧
    (reach [pInitSync, pInitSync2] [Event.callStart]).callerResumes ≤ 1 ∧
    (reach [pInitSync, pInitSync2] [Event.callStart]).started = true := by
  refine ⟨(C10_caller_resumed_once [pInitSync, pInitSync2] [Event.callStart]).2.1 ?_,
    (C10_caller_resumed_once [pInitSync, pInitSync2] [Event.callStart]).1, by decide⟩
  intro p hp hinit
  rcases List.mem_cons.mp hp with rfl | hp2
  · rfl
  · simp only [List.mem_singleton] at hp2
    rw [hp2]
    rfl

theorem pid_inj : ∀ ps : List ProviderSpec, (ps.map (fun p => p.pid)).Nodup →
    ∀ p ∈ ps, ∀ q ∈ ps, p.pid = q.pid → p = q := by
  intro ps
  induction ps with
  | nil =>
    intro _ p hp
    exact absurd hp (List.not_mem_nil p)
  | cons a t ih =>
    intro hnd p hp q hq hpq
    rw [List.map_cons, List.nodup_cons] at hnd
    obtain ⟨hna, hnt⟩ := hnd
    rcases List.mem_cons.mp hp with rfl | hp2
    · rcases List.mem_cons.mp hq with rfl | hq2
      · rfl
      · exact absurd (by rw [hpq]; exact List.mem_map_of_mem _ hq2) hna
    · rcases List.mem_cons.mp hq with rfl | hq2
      · exact absurd (by rw [← hpq]; exact List.mem_map_of_mem _ hp2) hna
      · exact ih hnt p hp2 q hq2 hpq

/-- C5: when some registered provider's `protonInit` raises, the error is
confined to that unit: the orchestrator never reaches `Started`, the
barrier never resumes the caller of `start()` (the failing unit never
increments the completion count), the caller — once parked at the
barrier — stays suspended, and every sibling init unit that does not raise
still runs: it is either already completed or still pending, and once no
unit is pending every non-raising sibling has completed. -/
theorem C5_init_error_isolated (ps : List ProviderSpec)
    (hnd : (ps.map (fun p => p.pid)).Nodup) (p : ProviderSpec) (hp : p ∈ ps)
    (hInit : p.hasInit = true) (hRaise : p.initRaises = true) (es : List Event) :
    (reach ps es).started = false ∧
    (reach ps es).callerResumes = 0 ∧
    ((reach ps es).starting = true → (reach ps es).callerStatus = CStatus.suspended) ∧
    (∀ q ∈ ps, q.hasInit = true → q.initRaises = false →
      (reach ps es).starting = true →
        q.pid ∈ (reach ps es).initCompleted ∨
          q.pid ∈ (reach ps es).pending.map PendingUnit.pid) ∧
    ((reach ps es).starting = true → (reach ps es).pending = [] →
      ∀ q ∈ ps, q.hasInit = true → q.initRaises = false →
        q.pid ∈ (reach ps es).initCompleted) := by
  have h := inv_reach ps es
  have hnotstarted : (reach ps es).started = false := by
    by_cases hst : (reach ps es).started = true
    · exfalso
      obtain ⟨hpnil, hrnil⟩ := PInv_started_nil h hst
      have hmem : p.pid ∈ (reach ps es).initSpawned := by
        rw [h.spawned_eq (Or.inr hst)]
        simp only [initPids, List.mem_map, List.mem_filter]
        exact ⟨p, ⟨hp, hInit⟩, rfl⟩
      have h2 := h.perm.subset hmem
      rw [hpnil, hrnil] at h2
      simp at h2
      obtain ⟨q, hq, hqe, _, hqraises⟩ := h.completed_link p.pid h2
      have hqp : q = p := pid_inj ps hnd q hq p hp hqe
      rw [hqp, hRaise] at hqraises
      exact Bool.noConfusion hqraises
    · simpa using hst
  have hres0 : (reach ps es).callerResumes = 0 := by
    by_cases hr1 : (reach ps es).callerResumes = 1
    · have hc := h.resumes_started hr1
      rw [hnotstarted] at hc
      exact Bool.noConfusion hc
    · have := h.resumes_le
      omega
  have key : ∀ q ∈ ps, q.hasInit = true → q.initRaises = false →
      (reach ps es).starting = true →
        q.pid ∈ (reach ps es).initCompleted ∨
          q.pid ∈ (reach ps es).pending.map PendingUnit.pid := by
    intro q hq hqinit hqnr hsg
    have hmem : q.pid ∈ (reach ps es).initSpawned := by
      rw [h.spawned_eq (Or.inl hsg)]
      simp only [initPids, List.mem_map, List.mem_filter]
      exact ⟨q, ⟨hq, hqinit⟩, rfl⟩
    have h2 := h.perm.subset hmem
    rcases List.mem_append.mp h2 with h3 | h3
    · rcases List.mem_append.mp h3 with h4 | h4
      · exact Or.inl h4
      · exfalso
        obtain ⟨r, hr, hre, _, hrraises⟩ := h.raised_link q.pid h4
        have hrq : r = q := pid_inj ps hnd r hr q hq hre
        rw [hrq, hqnr] at hrraises
        exact Bool.noConfusion hrraises
    · exact Or.inr h3
  refine ⟨hnotstarted, hres0, fun hsg => (h.starting_all hsg).1, key, ?_⟩
  · intro hsg hpnil q hq hqinit hqnr
    rcases key q hq hqinit hqnr hsg with h4 | h4
    · exact h4
    · rw [hpnil] at h4
      exact absurd h4 (List.not_mem_nil q.pid)

/-- Witness for C5: provider 4 raises synchronously while provider 2
yields once; after `start()` and one scheduler tick the sibling has
completed, the raiser is recorded, and the caller is still suspended with
the orchestrator never `Started`. -/
theorem C5_init_error_isolated_witness :
    (reach [pInitRaise, pInitYield] [Event.callStart, Event.tick 0]).started = false ∧
    (reach [pInitRaise, pInitYield] [Event.callStart, Event.tick 0]).callerResumes = 0 ∧
    (reach [pInitRaise, pInitYield] [Event.callStart, Event.tick 0]).callerStatus =
      CStatus.suspended ∧
    (2 : Nat) ∈ (reach [pInitRaise, pInitYield] [Event.callStart, Event.tick 0]).initCompleted := by
  have h := C5_init_error_isolated [pInitRaise, pInitYield] (by decide) pInitRaise
    (by decide) (by decide) (by decide) [Event.callStart, Event.tick 0]
  refine ⟨h.1, h.2.1, h.2.2.1 (by decide), ?_⟩
  exact h.2.2.2.2 (by decide) (by decide) pInitYield (by decide) (by decide) (by decide)

/-- C4: `awaitStart()` invoked when the orchestrator is already `Started`
returns immediately — only the ghost log changes, the thread is not
parked — and at that point the waiter queue is already empty; invoked
before `Started` it parks the calling thread in the queue; and on the very
step that reaches `Started`, every parked thread is resumed (appended to
the resumed log) and the queue is cleared. -/
theorem C4_awaitStart (ps : List ProviderSpec) (es : List Event) (t : Nat) (e : Event) :
    ((reach ps es).started = true →
      runAwait t (reach ps es) =
        { reach ps es with
          awaitReturnedNow := (reach ps es).awaitReturnedNow ++ [t] } ∧
      (reach ps es).waiters = []) ∧
    ((reach ps es).started = false →
      runAwait t (reach ps es) =
        { reach ps es with waiters := (reach ps es).waiters ++ [t] }) ∧
    ((reach ps es).started = false → (step (reach ps es) e).started = true →
      (step (reach ps es) e).resumedWaiters =
        (reach ps es).resumedWaiters ++ (reach ps es).waiters ∧
      (step (reach ps es) e).waiters = []) := by
  have h := inv_reach ps es
  refine ⟨?_, ?_, ?_⟩
  · intro hst
    exact ⟨by rw [runAwait, if_pos hst], (h.started_all hst).2.2.1⟩
  · intro hst
    rw [runAwait, if_neg (by simp [hst])]
  · intro hst hflip
    cases e with
    | callAwait u =>
      exfalso
      have heq : (step (reach ps es) (Event.callAwait u)).started = (reach ps es).started := by
        show (runAwait u (reach ps es)).started = _
        rw [runAwait]
        split <;> rfl
      rw [heq, hst] at hflip
      exact Bool.noConfusion hflip
    | callStart =>
      by_cases hg : ((reach ps es).starting || (reach ps es).started) = true
      · exfalso
        have heq : step (reach ps es) Event.callStart = reach ps es := by
          show runStart (reach ps es) = _
          rw [runStart, if_pos hg]
        rw [heq, hst] at hflip
        exact Bool.noConfusion hflip
      · have hloop := loop_eq (reach ps es).providers
          { reach ps es with starting := true, callerStatus := CStatus.running } rfl
        have hchar : step (reach ps es) Event.callStart = runStart (reach ps es) := rfl
        rw [hchar] at hflip ⊢
        rw [runStart, if_neg hg] at hflip ⊢
        dsimp only at hflip ⊢
        rw [hloop] at hflip ⊢
        split at hflip
        · exfalso
          dsimp only at hflip
          rw [hst] at hflip
          exact Bool.noConfusion hflip
        · next hbr =>
          rw [if_neg hbr]
          exact ⟨rfl, rfl⟩
    | tick c =>
      have hchar : step (reach ps es) (Event.tick c) = tick c (reach ps es) := rfl
      rw [hchar] at hflip ⊢
      rw [tick] at hflip ⊢
      by_cases hp : (reach ps es).pending.length = 0
      · exfalso
        rw [if_pos hp] at hflip
        rw [hst] at hflip
        exact Bool.noConfusion hflip
      · rw [if_neg hp] at hflip ⊢
        dsimp only at hflip ⊢
        by_cases hyl : ((reach ps es).pending.getD (c % (reach ps es).pending.length)
            (PendingUnit.mk 0 0 false)).yieldsLeft = 0
        · rw [if_pos hyl] at hflip ⊢
          rw [finishInit] at hflip ⊢
          by_cases hur : ((reach ps es).pending.getD (c % (reach ps es).pending.length)
              (PendingUnit.mk 0 0 false)).raises = true
          · exfalso
            rw [if_pos hur] at hflip
            dsimp only at hflip
            rw [hst] at hflip
            exact Bool.noConfusion hflip
          · rw [if_neg hur] at hflip ⊢
            dsimp only at hflip ⊢
            by_cases hcond : (reach ps es).completedInit + 1 =
                (reach ps es).numInitProviders ∧
                (reach ps es).callerStatus = CStatus.suspended
            · rw [if_pos hcond]
              exact ⟨rfl, rfl⟩
            · exfalso
              rw [if_neg hcond] at hflip
              dsimp only at hflip
              rw [hst] at hflip
              exact Bool.noConfusion hflip
        · exfalso
          rw [if_neg hyl] at hflip
          dsimp only at hflip
          rw [hst] at hflip
          exact Bool.noConfusion hflip

/-- Witness for C4: thread 7 awaits before `start()`; one tick closes the
barrier, resuming thread 7 and clearing the queue; thread 9 awaiting
afterwards returns immediately. -/
theorem C4_awaitStart_witness :
    (reach [pInitYield] [Event.callAwait 7, Event.callStart]).started = false ∧
    (step (reach [pInitYield] [Event.callAwait 7, Event.callStart])
      (Event.tick 0)).resumedWaiters = [7] ∧
    (step (reach [pInitYield] [Event.callAwait 7, Event.callStart])
      (Event.tick 0)).waiters = [] ∧
    runAwait 9 (reach [pInitYield] [Event.callAwait 7, Event.callStart, Event.tick 0]) =
      { reach [pInitYield] [Event.callAwait 7, Event.callStart, Event.tick 0] with
        awaitReturnedNow :=
          (reach [pInitYield]
            [Event.callAwait 7, Event.callStart, Event.tick 0]).awaitReturnedNow ++ [9] } := by
  have h3 := (C4_awaitStart [pInitYield] [Event.callAwait 7, Event.callStart] 9
    (Event.tick 0)).2.2 (by decide) (by decide)
  have h1 := (C4_awaitStart [pInitYield] [Event.callAwait 7, Event.callStart, Event.tick 0] 9
    (Event.tick 0)).1 (by decide)
  exact ⟨by decide, h3.1.trans (by decide), h3.2, h1.1⟩
